import Mathlib

/-!
# Verification of the `aoc2019` Intcode machine

This development gives a shallow embedding of the stored-program virtual
machine implemented in `src/bin/day9.rs` (the fully featured variant with
relative addressing and page-growing memory) and of the amplifier
initialization phase of `src/bin/day7.rs`, and proves properties of the
embedded code.

Modelling conventions, chosen to follow the Rust source:

* `i64` cell values are modelled as `Int`.  None of the proved properties
  depends on 64-bit overflow of cell *arithmetic*, so `+`, `*` and
  comparisons are unbounded.
* `usize` addresses are modelled as `Nat`; the Rust cast `value as usize`
  of an `i64` is modelled explicitly as a two's-complement wrap into
  `[0, 2^64)` (`usizeOfInt`), because the sign wrap is observable.
* Rust panics (`unimplemented!()`, out-of-bounds indexing, and the
  guaranteed `Vec` "capacity overflow" panic when a resize would need more
  than `isize::MAX` bytes) are modelled as `none` / the `Outcome.crash`
  result.  `usize` additions that can overflow use release-mode wrapping
  semantics; on every path where that wrap occurs the subsequent index
  check fails, so the modelled outcome (a crash) agrees with the debug
  build as well.
* The fetch-decode-execute loop is given step fuel; running out of fuel
  yields `none` (undetermined), which is distinct from `Outcome.crash`.
-/

namespace Intcode

/-- Cell values: Rust `i64` (`type Value = i64;`). -/
abbrev Value := Int

/-- The flat memory vector `Vec<Value>`. -/
abbrev Mem := List Value

/-- `const PAGE_SIZE: Addr = 1024;` -/
def PAGE_SIZE : Nat := 1024

/-- Modulus of Rust `usize` (64-bit target). -/
def USIZE_MOD : Nat := 2 ^ 64

/-- `isize::MAX`: a `Vec` resize whose requested capacity in bytes exceeds
this panics ("capacity overflow"). -/
def ISIZE_MAX : Nat := 2 ^ 63 - 1

/-- Rust `v as usize` for a (64-bit) signed integer value: wrap into
`[0, 2^64)`. -/
def usizeOfInt (v : Value) : Nat := (v % (USIZE_MOD : Int)).toNat

/-- `Vec::<i64>::resize(newLen, 0)`: truncate, or grow with zero fill.
Growing to more than `isize::MAX` bytes (8 bytes per cell) is a guaranteed
"capacity overflow" panic, modelled as `none`. -/
def vecResize (mem : Mem) (newLen : Nat) : Option Mem :=
  if newLen ≤ mem.length then some (mem.take newLen)
  else if newLen * 8 ≤ ISIZE_MAX then
    some (mem ++ List.replicate (newLen - mem.length) 0)
  else none

/-- The new length computed by `IntcodeISS::resize_mem`:
`(addr + PAGE_SIZE) / PAGE_SIZE * PAGE_SIZE` in `usize` arithmetic (the
addition wraps). -/
def pageRound (addr : Nat) : Nat :=
  (addr + PAGE_SIZE) % USIZE_MOD / PAGE_SIZE * PAGE_SIZE

/-- `IntcodeISS::resize_mem`: grow memory to the next `PAGE_SIZE` multiple
past `addr`. -/
def resize_mem (mem : Mem) (addr : Nat) : Option Mem :=
  vecResize mem (pageRound addr)

/-- The largest length `resize_mem` can ever grow memory to: the largest
`PAGE_SIZE` multiple whose byte size fits in `isize::MAX`.  Any `Vec`
produced by a successful resize has length at most `LENCAP`. -/
def LENCAP : Nat := 2 ^ 60 - 1024

/-- `IntcodeISS::peek` at memory level: a hit returns the cell, a miss
resizes and then indexes (`self.mem[addr]`, whose out-of-bounds panic is
`none`). -/
def peekMem (mem : Mem) (addr : Nat) : Option (Value × Mem) :=
  match mem.get? addr with
  | some cell => some (cell, mem)
  | none =>
    match resize_mem mem addr with
    | none => none
    | some m =>
      match m.get? addr with
      | some cell => some (cell, m)
      | none => none

/-- `IntcodeISS::poke` at memory level. -/
def pokeMem (mem : Mem) (addr : Nat) (v : Value) : Option Mem :=
  if addr < mem.length then some (mem.set addr v)
  else
    match resize_mem mem addr with
    | none => none
    | some m => if addr < m.length then some (m.set addr v) else none

/-- The machine state of `struct IntcodeISS`. -/
structure IntcodeISS where
  mem : Mem
  pc : Nat
  relative_base : Value
  deriving DecidableEq, Repr

/-- `IntcodeISS::new`: load a program, pointer and relative base at 0. -/
def IntcodeISS.new (prog : List Value) : IntcodeISS :=
  { mem := prog, pc := 0, relative_base := 0 }

/-- `IntcodeISS::peek` (it takes `&mut self`: the miss path grows memory). -/
def IntcodeISS.peek (s : IntcodeISS) (addr : Nat) :
    Option (Value × IntcodeISS) :=
  match peekMem s.mem addr with
  | none => none
  | some (v, m) => some (v, { s with mem := m })

/-- `IntcodeISS::poke`. -/
def IntcodeISS.poke (s : IntcodeISS) (addr : Nat) (v : Value) :
    Option IntcodeISS :=
  match pokeMem s.mem addr v with
  | none => none
  | some m => some { s with mem := m }

/-- `IntcodeISS::addr_fetch`: resolve a write-target parameter to an
address; addressing modes 0 and 1 use the raw value, mode 2 adds the
relative base; any other mode is `unimplemented!()`. -/
def addr_fetch (s : IntcodeISS) (am v : Value) : Option (Nat × IntcodeISS) :=
  if am = 0 then some (usizeOfInt v, s)
  else if am = 1 then some (usizeOfInt v, s)
  else if am = 2 then some (usizeOfInt (s.relative_base + v), s)
  else none

/-- `IntcodeISS::fetch`: resolve a readable parameter to a value. -/
def fetch (s : IntcodeISS) (am v : Value) : Option (Value × IntcodeISS) :=
  if am = 0 then s.peek (usizeOfInt v)
  else if am = 1 then some (v, s)
  else if am = 2 then s.peek (usizeOfInt (s.relative_base + v))
  else none

/-- The mode/opcode split of `IntcodeISS::decode` (lines 82-90):
`(word / 10000 % 10, word / 1000 % 10, word / 100 % 10, word % 100)`
with Rust truncated division and remainder. -/
def splitWord (word : Value) : Value × Value × Value × Value :=
  ((word.tdiv 10000).tmod 10,
   (word.tdiv 1000).tmod 10,
   (word.tdiv 100).tmod 10,
   word.tmod 100)

/-- Decoded instructions (`enum Instruction`). -/
inductive Instruction
  | Add (d : Nat) (a b : Value)
  | Mul (d : Nat) (a b : Value)
  | Get (d : Nat)
  | Put (a : Value)
  | Jpt (a : Value) (d : Nat)
  | Jpf (a : Value) (d : Nat)
  | Lt (d : Nat) (a b : Value)
  | Eq (d : Nat) (a b : Value)
  | Rbo (a : Value)
  | Halt
  deriving DecidableEq, Repr

/-- The shared shape of the `Add`/`Mul`/`Lt`/`Eq` arms of
`IntcodeISS::decode`: resolve the write target from `rd` under mode `md`,
then the two read operands, in the source's evaluation order. -/
def resolveDAB (mk : Nat → Value → Value → Instruction) (s : IntcodeISS)
    (md m1 m2 r1 r2 rd : Value) : Option (Instruction × IntcodeISS) := do
  let (d, s) ← addr_fetch s md rd
  let (a, s) ← fetch s m1 r1
  let (b, s) ← fetch s m2 r2
  some (mk d a b, s)

/-- The shared shape of the `Jpt`/`Jpf` arms of `IntcodeISS::decode`:
two read operands, the second cast to an address (`as Addr`). -/
def resolveJump (mk : Value → Nat → Instruction) (s : IntcodeISS)
    (m1 m2 r1 r2 : Value) : Option (Instruction × IntcodeISS) := do
  let (a, s) ← fetch s m1 r1
  let (b, s) ← fetch s m2 r2
  some (mk a (usizeOfInt b), s)

/-- The body of `IntcodeISS::decode` after the instruction word has been
read and split into `(md, m2, m1, opcode)`: eagerly read the three raw
parameter cells after `self.pc`, then resolve the parameters of the
selected opcode (in the source's evaluation order).  An unrecognized
opcode is `unimplemented!()`, i.e. `none`. -/
def decodeWith (s : IntcodeISS) (md m2 m1 opcode : Value) :
    Option (Instruction × IntcodeISS) := do
  let (r1, s) ← s.peek (s.pc + 1)
  let (r2, s) ← s.peek (s.pc + 2)
  let (rd, s) ← s.peek (s.pc + 3)
  if opcode = 1 then resolveDAB .Add s md m1 m2 r1 r2 rd
  else if opcode = 2 then resolveDAB .Mul s md m1 m2 r1 r2 rd
  else if opcode = 3 then do
    let (d, s) ← addr_fetch s m1 r1
    some (.Get d, s)
  else if opcode = 4 then do
    let (a, s) ← fetch s m1 r1
    some (.Put a, s)
  else if opcode = 5 then resolveJump .Jpt s m1 m2 r1 r2
  else if opcode = 6 then resolveJump .Jpf s m1 m2 r1 r2
  else if opcode = 7 then resolveDAB .Lt s md m1 m2 r1 r2 rd
  else if opcode = 8 then resolveDAB .Eq s md m1 m2 r1 r2 rd
  else if opcode = 9 then do
    let (a, s) ← fetch s m1 r1
    some (.Rbo a, s)
  else if opcode = 99 then
    some (.Halt, s)
  else none

/-- `IntcodeISS::decode`: read the instruction word at `addr`, split it
with `splitWord`, and decode. -/
def decode (s : IntcodeISS) (addr : Nat) : Option (Instruction × IntcodeISS) := do
  let (word, s) ← s.peek addr
  decodeWith s (splitWord word).1 (splitWord word).2.1 (splitWord word).2.2.1
    (splitWord word).2.2.2

/-- `enum StopReason`. -/
inductive StopReason
  | NeedInput
  | ProgramHalt
  deriving DecidableEq, Repr

/-- Result of one `compute` call.  `crash` models a Rust panic (the
process dies, leaving no machine state); `done` carries the stop reason,
the accumulated output, and the machine as left behind. -/
inductive Outcome
  | crash
  | done (reason : StopReason) (output : List Value) (s : IntcodeISS)
  deriving DecidableEq, Repr

/-- The loop body of `IntcodeISS::compute`, with step fuel; `output` is
the accumulator of emitted values (in reverse push order).  Running out of
fuel yields `none`. -/
def computeAux : Nat → IntcodeISS → List Value → List Value → Option Outcome
  | 0, _, _, _ => none
  | fuel + 1, s, input, output =>
    match decode s s.pc with
    | none => some .crash
    | some (inst, s) =>
      match inst with
      | .Add d a b =>
        match s.poke d (a + b) with
        | none => some .crash
        | some s => computeAux fuel { s with pc := s.pc + 4 } input output
      | .Mul d a b =>
        match s.poke d (a * b) with
        | none => some .crash
        | some s => computeAux fuel { s with pc := s.pc + 4 } input output
      | .Get d =>
        match input with
        | [] => some (.done .NeedInput output.reverse s)
        | i :: input =>
          match s.poke d i with
          | none => some .crash
          | some s => computeAux fuel { s with pc := s.pc + 2 } input output
      | .Put a => computeAux fuel { s with pc := s.pc + 2 } input (a :: output)
      | .Jpt a d =>
        if a ≠ 0 then computeAux fuel { s with pc := d } input output
        else computeAux fuel { s with pc := s.pc + 3 } input output
      | .Jpf a d =>
        if a = 0 then computeAux fuel { s with pc := d } input output
        else computeAux fuel { s with pc := s.pc + 3 } input output
      | .Lt d a b =>
        match s.poke d (if a < b then 1 else 0) with
        | none => some .crash
        | some s => computeAux fuel { s with pc := s.pc + 4 } input output
      | .Eq d a b =>
        match s.poke d (if a = b then 1 else 0) with
        | none => some .crash
        | some s => computeAux fuel { s with pc := s.pc + 4 } input output
      | .Rbo a =>
        computeAux fuel
          { s with relative_base := s.relative_base + a, pc := s.pc + 2 }
          input output
      | .Halt => some (.done .ProgramHalt output.reverse s)

/-- `IntcodeISS::compute`: run the loop with an empty output accumulator. -/
def compute (fuel : Nat) (s : IntcodeISS) (input : List Value) : Option Outcome :=
  computeAux fuel s input []

/-- A host-visible memory operation (the public `peek`/`poke` surface). -/
inductive MemOp
  | read (a : Nat)
  | write (a : Nat) (v : Value)
  deriving DecidableEq, Repr

/-- Run a sequence of memory operations against a memory, failing if any
single operation panics. -/
def runMemOps : Mem → List MemOp → Option Mem
  | m, [] => some m
  | m, .read a :: ops =>
    match peekMem m a with
    | none => none
    | some (_, m₂) => runMemOps m₂ ops
  | m, .write a v :: ops =>
    match pokeMem m a v with
    | none => none
    | some m₂ => runMemOps m₂ ops

/-- The addresses written by a sequence of memory operations. -/
def writtenAddrs (ops : List MemOp) : List Nat :=
  ops.filterMap fun op =>
    match op with
    | .write a _ => some a
    | .read _ => none

/-- Modelled from the spec wording of the decoder ("opcode = value mod
100; parameter modes = successive decimal digits above the opcode"):
the same split as `splitWord`, but with mathematical (Euclidean)
division and modulus, to be compared with the source's truncated
division split. -/
def specSplitWord (word : Value) : Value × Value × Value × Value :=
  (word / 10000 % 10, word / 1000 % 10, word / 100 % 10, word % 100)

/-- Two memories are extensionally equal: every address stores the same
value (addresses past the backing vector read as the fill value 0). -/
def mapEq (m₁ m₂ : Mem) : Prop :=
  ∀ a, m₁.getD a 0 = m₂.getD a 0

/-- Two machine states are observationally equal: same address-to-value
mapping, same instruction pointer, same relative base. -/
def MachEq (s t : IntcodeISS) : Prop :=
  mapEq s.mem t.mem ∧ s.pc = t.pc ∧ s.relative_base = t.relative_base

/-- `MachEq` strengthened with the invariant that both backing vectors
are within the resize capacity bound (true of every vector this machine
can construct). -/
def MachSim (s t : IntcodeISS) : Prop :=
  MachEq s t ∧ s.mem.length ≤ LENCAP ∧ t.mem.length ≤ LENCAP

/-- Relates the outcomes of two `compute` calls: both undetermined, both
a panic, or both returning with the same stop reason and output and
observationally equal machines. -/
def OutcomeSim : Option Outcome → Option Outcome → Prop
  | none, none => True
  | some .crash, some .crash => True
  | some (.done r₁ o₁ s₁), some (.done r₂ o₂ s₂) => r₁ = r₂ ∧ o₁ = o₂ ∧ MachEq s₁ s₂
  | _, _ => False

/-- State evolution performed by the read-only machine operations
(`peek`, `fetch`, `decode`): the pointer, relative base and value mapping
are untouched; memory can only stay identical or grow within `LENCAP`. -/
def GrownMach (s t : IntcodeISS) : Prop :=
  mapEq s.mem t.mem ∧ t.pc = s.pc ∧ t.relative_base = s.relative_base ∧
    s.mem.length ≤ t.mem.length ∧ (t.mem = s.mem ∨ t.mem.length ≤ LENCAP)

/-- Relates the `Option (value × state)` results of one machine
operation performed on two `MachSim`-related machines. -/
def PairSim {α : Type} (o₁ o₂ : Option (α × IntcodeISS)) : Prop :=
  (o₁ = none ∧ o₂ = none) ∨
    ∃ x t₁ t₂, o₁ = some (x, t₁) ∧ o₂ = some (x, t₂) ∧ MachSim t₁ t₂

end Intcode

namespace Day7

/-! ## The day 7 machine

`src/bin/day7.rs` implements an earlier, simpler variant of the machine:
`i32` cells (modelled as `Int`, arithmetic overflow untouched by the
claims), `u32` addresses, a fixed-size memory that panics on any
out-of-bounds access, addressing modes 0 and 1 only, an
`assert_eq!(md, 0)` on the write-parameter mode digit, and lazily
evaluated raw parameter reads (the closures `r1`, `r2`, `rd` run only in
the arms that use them). -/

abbrev Value := Int

/-- Rust `v as u32` for an `i32` value. -/
def u32OfInt (v : Value) : Nat := (v % ((2 ^ 32 : Nat) : Int)).toNat

/-- `struct IntcodeISS` of day 7: memory and instruction pointer only. -/
structure IntcodeISS where
  mem : List Value
  pc : Nat
  deriving DecidableEq, Repr

/-- `IntcodeISS::new`. -/
def IntcodeISS.new (prog : List Value) : IntcodeISS :=
  { mem := prog, pc := 0 }

/-- `IntcodeISS::peek`: direct indexing, out of bounds is a panic. -/
def IntcodeISS.peek (s : IntcodeISS) (i : Nat) : Option Value :=
  s.mem.get? i

/-- `IntcodeISS::poke`: direct indexed store, out of bounds is a panic. -/
def IntcodeISS.poke (s : IntcodeISS) (i : Nat) (v : Value) : Option IntcodeISS :=
  if i < s.mem.length then some { s with mem := s.mem.set i v } else none

/-- The `fetch` closure of day 7's `decode`: position or immediate mode
only, anything else is `unimplemented!()`. -/
def fetch (s : IntcodeISS) (am v : Value) : Option Value :=
  if am = 0 then s.peek (u32OfInt v)
  else if am = 1 then some v
  else none

/-- `enum Instruction` of day 7 (no relative-base opcode). -/
inductive Instruction
  | Add (d : Nat) (a b : Value)
  | Mul (d : Nat) (a b : Value)
  | Get (d : Nat)
  | Put (a : Value)
  | Jpt (a : Value) (d : Nat)
  | Jpf (a : Value) (d : Nat)
  | Lt (d : Nat) (a b : Value)
  | Eq (d : Nat) (a b : Value)
  | Halt
  deriving DecidableEq, Repr

/-- `IntcodeISS::decode` of day 7: split the word (same digit split as
day 9), `assert_eq!(md, 0)`, then resolve the selected opcode's
parameters; the raw reads `r1`/`r2`/`rd` happen only in arms that use
them.  The machine state is untouched (`&self`). -/
def decode (s : IntcodeISS) (addr : Nat) : Option Instruction := do
  let word ← s.peek addr
  let (md, m2, m1, opcode) := Intcode.splitWord word
  if md = 0 then
    if opcode = 1 then do
      let rd ← s.peek (s.pc + 3)
      let r1 ← s.peek (s.pc + 1)
      let a ← fetch s m1 r1
      let r2 ← s.peek (s.pc + 2)
      let b ← fetch s m2 r2
      some (.Add (u32OfInt rd) a b)
    else if opcode = 2 then do
      let rd ← s.peek (s.pc + 3)
      let r1 ← s.peek (s.pc + 1)
      let a ← fetch s m1 r1
      let r2 ← s.peek (s.pc + 2)
      let b ← fetch s m2 r2
      some (.Mul (u32OfInt rd) a b)
    else if opcode = 3 then do
      let r1 ← s.peek (s.pc + 1)
      some (.Get (u32OfInt r1))
    else if opcode = 4 then do
      let r1 ← s.peek (s.pc + 1)
      let a ← fetch s m1 r1
      some (.Put a)
    else if opcode = 5 then do
      let r1 ← s.peek (s.pc + 1)
      let a ← fetch s m1 r1
      let r2 ← s.peek (s.pc + 2)
      let b ← fetch s m2 r2
      some (.Jpt a (u32OfInt b))
    else if opcode = 6 then do
      let r1 ← s.peek (s.pc + 1)
      let a ← fetch s m1 r1
      let r2 ← s.peek (s.pc + 2)
      let b ← fetch s m2 r2
      some (.Jpf a (u32OfInt b))
    else if opcode = 7 then do
      let rd ← s.peek (s.pc + 3)
      let r1 ← s.peek (s.pc + 1)
      let a ← fetch s m1 r1
      let r2 ← s.peek (s.pc + 2)
      let b ← fetch s m2 r2
      some (.Lt (u32OfInt rd) a b)
    else if opcode = 8 then do
      let rd ← s.peek (s.pc + 3)
      let r1 ← s.peek (s.pc + 1)
      let a ← fetch s m1 r1
      let r2 ← s.peek (s.pc + 2)
      let b ← fetch s m2 r2
      some (.Eq (u32OfInt rd) a b)
    else if opcode = 99 then
      some .Halt
    else none
  else none

/-- Result of one day-7 `compute` call. -/
inductive Outcome
  | crash
  | done (reason : Intcode.StopReason) (output : List Value) (s : IntcodeISS)
  deriving DecidableEq, Repr

/-- The loop body of day 7's `IntcodeISS::compute`, with step fuel. -/
def computeAux : Nat → IntcodeISS → List Value → List Value → Option Outcome
  | 0, _, _, _ => none
  | fuel + 1, s, input, output =>
    match decode s s.pc with
    | none => some .crash
    | some inst =>
      match inst with
      | .Add d a b =>
        match s.poke d (a + b) with
        | none => some .crash
        | some s => computeAux fuel { s with pc := s.pc + 4 } input output
      | .Mul d a b =>
        match s.poke d (a * b) with
        | none => some .crash
        | some s => computeAux fuel { s with pc := s.pc + 4 } input output
      | .Get d =>
        match input with
        | [] => some (.done .NeedInput output.reverse s)
        | i :: input =>
          match s.poke d i with
          | none => some .crash
          | some s => computeAux fuel { s with pc := s.pc + 2 } input output
      | .Put a => computeAux fuel { s with pc := s.pc + 2 } input (a :: output)
      | .Jpt a d =>
        if a ≠ 0 then computeAux fuel { s with pc := d } input output
        else computeAux fuel { s with pc := s.pc + 3 } input output
      | .Jpf a d =>
        if a = 0 then computeAux fuel { s with pc := d } input output
        else computeAux fuel { s with pc := s.pc + 3 } input output
      | .Lt d a b =>
        match s.poke d (if a < b then 1 else 0) with
        | none => some .crash
        | some s => computeAux fuel { s with pc := s.pc + 4 } input output
      | .Eq d a b =>
        match s.poke d (if a = b then 1 else 0) with
        | none => some .crash
        | some s => computeAux fuel { s with pc := s.pc + 4 } input output
      | .Halt => some (.done .ProgramHalt output.reverse s)

/-- Day 7 `IntcodeISS::compute`. -/
def compute (fuel : Nat) (s : IntcodeISS) (input : List Value) : Option Outcome :=
  computeAux fuel s input []

/-- One iteration of the initialization loop of `eval_amp_chain_loopback`
(day 7, lines 174-184): run a fresh machine loaded with `amp_sw` on the
two-value input `[p, carry]` (the current contents of `init_input`),
and yield the input pair that was supplied together with the machine's
first output `output[0]` (`out.head?`; indexing an empty output is a
panic).  The stop reason is discarded, as in the source. -/
def ampInitStep (fuel : Nat) (amp_sw : List Value) (p carry : Value) :
    Option ((Value × Value) × Value) := do
  let r ← compute fuel (IntcodeISS.new amp_sw) [p, carry]
  match r with
  | .crash => none
  | .done _ out _ => do
    let o ← out.head?
    some ((p, carry), o)

/-- The initialization loop of `eval_amp_chain_loopback`: iterate
`ampInitStep` over the phase settings, threading `init_input[1]` (the
`carry`), which starts at 0 and is overwritten with each machine's first
output.  Records, per machine, the input pair it was given and its first
output. -/
def ampInitTrace (fuel : Nat) (amp_sw : List Value) :
    Value → List Value → Option (List ((Value × Value) × Value))
  | _, [] => some []
  | carry, p :: ps => do
    let rec1 ← ampInitStep fuel amp_sw p carry
    let rest ← ampInitTrace fuel amp_sw rec1.2 ps
    some (rec1 :: rest)

/-- The full initialization phase: `init_input` starts as `[_, 0]`. -/
def ampInit (fuel : Nat) (amp_sw : List Value) (phase : List Value) :
    Option (List ((Value × Value) × Value)) :=
  ampInitTrace fuel amp_sw 0 phase

end Day7


namespace Intcode

/-! ## Arithmetic facts about page rounding and address casts -/

theorem pageRound_gt {a : Nat} (h : a + PAGE_SIZE < USIZE_MOD) : a < pageRound a := by
  unfold pageRound PAGE_SIZE USIZE_MOD at *
  rw [Nat.mod_eq_of_lt h]
  omega

theorem pageRound_le {a : Nat} (h : a + PAGE_SIZE < USIZE_MOD) :
    pageRound a ≤ a + PAGE_SIZE := by
  unfold pageRound PAGE_SIZE USIZE_MOD at *
  rw [Nat.mod_eq_of_lt h]
  omega

theorem pageRound_le_LENCAP {a : Nat} (h : pageRound a * 8 ≤ ISIZE_MAX) :
    pageRound a ≤ LENCAP := by
  unfold pageRound PAGE_SIZE USIZE_MOD ISIZE_MAX at h
  unfold pageRound PAGE_SIZE USIZE_MOD LENCAP
  omega

theorem LENCAP_lt : LENCAP < 2 ^ 63 := by unfold LENCAP; omega

theorem usizeOfInt_lt (v : Int) : usizeOfInt v < USIZE_MOD := by
  unfold usizeOfInt USIZE_MOD at *
  omega

theorem usizeOfInt_neg {v : Int} (h1 : -(2 ^ 63) ≤ v) (h2 : v < 0) :
    2 ^ 63 ≤ usizeOfInt v := by
  unfold usizeOfInt USIZE_MOD
  omega

/-! ## Memory lemmas -/

theorem getD_of_get?_eq_some {m : Mem} {a : Nat} {c : Value}
    (h : m.get? a = some c) : m.getD a 0 = c := by
  simp [List.getD_eq_getElem?_getD, ← List.get?_eq_getElem?, h]

theorem get?_eq_some_getD {m : Mem} {a : Nat} (h : a < m.length) :
    m.get? a = some (m.getD a 0) := by
  simp [List.getD_eq_getElem?_getD, List.get?_eq_getElem?, List.getElem?_eq_getElem h]

theorem getD_of_len_le {m : Mem} {a : Nat} (h : m.length ≤ a) : m.getD a 0 = 0 := by
  simp [List.getD_eq_getElem?_getD, List.getElem?_eq_none h]

theorem mapEq_refl (m : Mem) : mapEq m m := fun _ => rfl

theorem mapEq_symm {m₁ m₂ : Mem} (h : mapEq m₁ m₂) : mapEq m₂ m₁ := fun a => (h a).symm

theorem mapEq_trans {m₁ m₂ m₃ : Mem} (h : mapEq m₁ m₂) (h' : mapEq m₂ m₃) :
    mapEq m₁ m₃ := fun a => (h a).trans (h' a)

theorem mapEq_append_replicate (m : Mem) (k : Nat) :
    mapEq m (m ++ List.replicate k 0) := by
  intro a
  simp only [List.getD_eq_getElem?_getD, List.getElem?_append, List.getElem?_replicate]
  split
  · rfl
  · rename_i hlt
    rw [List.getElem?_eq_none (by omega)]
    split <;> rfl

theorem peekMem_spec {m : Mem} {a : Nat} {v : Value} {m' : Mem}
    (h : peekMem m a = some (v, m')) :
    v = m.getD a 0 ∧ mapEq m m' ∧ m.length ≤ m'.length ∧ a < m'.length ∧
      (m' = m ∨ (m.length < m'.length ∧ m'.length ≤ LENCAP)) := by
  unfold peekMem at h
  split at h
  · -- memory hit
    rename_i c hg
    obtain ⟨rfl, rfl⟩ : c = v ∧ m = m' := by simpa using h
    have hlen : a < m.length := by
      by_contra hc
      rw [List.get?_eq_none.mpr (by omega)] at hg
      exact Option.noConfusion hg
    exact ⟨(getD_of_get?_eq_some hg).symm, mapEq_refl m, le_refl _, hlen, Or.inl rfl⟩
  · rename_i hg
    have ha : m.length ≤ a := List.get?_eq_none.mp hg
    split at h
    · exact Option.noConfusion h
    · rename_i m₂ hr
      split at h
      · rename_i c hg2
        obtain ⟨rfl, rfl⟩ : c = v ∧ m₂ = m' := by simpa using h
        unfold resize_mem vecResize at hr
        split at hr
        · -- truncation branch: contradicts hg2
          rename_i htr
          have htk : m₂ = m.take (pageRound a) := by
            have := hr
            simp at this
            exact this.symm
          have hsh : m₂.length ≤ a := by
            rw [htk, List.length_take]
            omega
          rw [List.get?_eq_none.mpr hsh] at hg2
          exact Option.noConfusion hg2
        · split at hr
          · -- growth branch
            rename_i hnotr hcap
            have hgw : m₂ = m ++ List.replicate (pageRound a - m.length) 0 := by
              have := hr
              simp at this
              exact this.symm
            have hlen' : m₂.length = pageRound a := by
              rw [hgw, List.length_append, List.length_replicate]
              omega
            have halt : a < m₂.length := by
              by_contra hc
              rw [List.get?_eq_none.mpr (by omega)] at hg2
              exact Option.noConfusion hg2
            have hv : c = 0 := by
              have hd := getD_of_get?_eq_some hg2
              rw [hgw, List.getD_eq_getElem?_getD, List.getElem?_append_right ha,
                List.getElem?_replicate] at hd
              split at hd
              · simp at hd
                exact hd.symm
              · exfalso
                omega
            refine ⟨by rw [hv, getD_of_len_le ha], ?_, ?_, halt, ?_⟩
            · rw [hgw]
              exact mapEq_append_replicate m _
            · omega
            · right
              refine ⟨by omega, ?_⟩
              rw [hlen']
              exact pageRound_le_LENCAP hcap
          · exact Option.noConfusion hr
      · exact Option.noConfusion h


theorem getD_set_self {m : Mem} {a : Nat} {v : Value} (h : a < m.length) :
    (m.set a v).getD a 0 = v := by
  simp [List.getD_eq_getElem?_getD, List.getElem?_set_self h]

theorem getD_set_ne {m : Mem} {a b : Nat} {v : Value} (h : b ≠ a) :
    (m.set a v).getD b 0 = m.getD b 0 := by
  simp [List.getD_eq_getElem?_getD, List.getElem?_set_ne (Ne.symm h)]

theorem pokeMem_spec {m : Mem} {a : Nat} {v : Value} {m' : Mem}
    (h : pokeMem m a v = some m') :
    m'.getD a 0 = v ∧ (∀ b, b ≠ a → m'.getD b 0 = m.getD b 0) ∧
      m.length ≤ m'.length ∧ a < m'.length ∧
      (m'.length = m.length ∨ (m.length < m'.length ∧ m'.length ≤ LENCAP)) := by
  unfold pokeMem at h
  split at h
  · -- in-bounds store
    rename_i hlt
    obtain rfl : m.set a v = m' := by simpa using h
    refine ⟨getD_set_self hlt, fun b hb => getD_set_ne hb, ?_, ?_, Or.inl ?_⟩ <;>
      simp [List.length_set, hlt]
  · rename_i hge
    split at h
    · exact Option.noConfusion h
    · rename_i m₂ hr
      split at h
      · rename_i hlt2
        obtain rfl : m₂.set a v = m' := by simpa using h
        unfold resize_mem vecResize at hr
        split at hr
        · -- truncation branch: contradicts a < m₂.length
          rename_i htr
          have htk : m₂ = m.take (pageRound a) := by
            have := hr
            simp at this
            exact this.symm
          exfalso
          rw [htk, List.length_take] at hlt2
          omega
        · split at hr
          · rename_i hnotr hcap
            have hgw : m₂ = m ++ List.replicate (pageRound a - m.length) 0 := by
              have := hr
              simp at this
              exact this.symm
            have hlen' : m₂.length = pageRound a := by
              rw [hgw, List.length_append, List.length_replicate]
              omega
            have hcapl := pageRound_le_LENCAP hcap
            refine ⟨getD_set_self hlt2, fun b hb => ?_, ?_, ?_, Or.inr ⟨?_, ?_⟩⟩
            · rw [getD_set_ne hb, hgw]
              exact (mapEq_append_replicate m _ b).symm
            · rw [List.length_set]
              omega
            · rw [List.length_set]
              omega
            · rw [List.length_set]
              omega
            · rw [List.length_set]
              omega
          · exact Option.noConfusion hr
      · exact Option.noConfusion h

theorem peekMem_good {m : Mem} {a : Nat} (ha : a < LENCAP) :
    ∃ m', peekMem m a = some (m.getD a 0, m') := by
  unfold peekMem
  cases hg : m.get? a with
  | some c =>
    rw [getD_of_get?_eq_some hg]
    exact ⟨m, rfl⟩
  | none =>
    have hal : m.length ≤ a := List.get?_eq_none.mp hg
    have hw : a + PAGE_SIZE < USIZE_MOD := by
      unfold PAGE_SIZE USIZE_MOD LENCAP at *
      omega
    have hgt := pageRound_gt hw
    have hle := pageRound_le hw
    have hcap : pageRound a * 8 ≤ ISIZE_MAX := by
      unfold PAGE_SIZE ISIZE_MAX LENCAP at *
      omega
    have hr : resize_mem m a =
        some (m ++ List.replicate (pageRound a - m.length) 0) := by
      unfold resize_mem vecResize
      rw [if_neg (by omega), if_pos hcap]
    have hg2 : (m ++ List.replicate (pageRound a - m.length) 0).get? a = some 0 := by
      rw [List.get?_eq_getElem?, List.getElem?_append_right hal, List.getElem?_replicate,
        if_pos (by omega)]
    rw [getD_of_len_le hal]
    simp only [hr, hg2]
    exact ⟨_, rfl⟩

theorem pokeMem_good {m : Mem} {a : Nat} (v : Value) (ha : a < LENCAP) :
    ∃ m', pokeMem m a v = some m' := by
  unfold pokeMem
  split
  · exact ⟨_, rfl⟩
  · rename_i hge
    have hal : m.length ≤ a := by omega
    have hw : a + PAGE_SIZE < USIZE_MOD := by
      unfold PAGE_SIZE USIZE_MOD LENCAP at *
      omega
    have hgt := pageRound_gt hw
    have hle := pageRound_le hw
    have hcap : pageRound a * 8 ≤ ISIZE_MAX := by
      unfold PAGE_SIZE ISIZE_MAX LENCAP at *
      omega
    have hr : resize_mem m a =
        some (m ++ List.replicate (pageRound a - m.length) 0) := by
      unfold resize_mem vecResize
      rw [if_neg (by omega), if_pos hcap]
    have hc : a < (m ++ List.replicate (pageRound a - m.length) 0).length := by
      rw [List.length_append, List.length_replicate]
      omega
    simp only [hr, if_pos hc]
    exact ⟨_, rfl⟩

theorem resize_len_le {m m₂ : Mem} {a : Nat} (hm : m.length ≤ LENCAP)
    (ha : LENCAP ≤ a) (hr : resize_mem m a = some m₂) : m₂.length ≤ a := by
  unfold resize_mem vecResize at hr
  split at hr
  · rename_i htr
    have htk : m₂ = m.take (pageRound a) := by
      have := hr
      simp at this
      exact this.symm
    rw [htk, List.length_take]
    omega
  · split at hr
    · rename_i hn hcap
      have hgw : m₂ = m ++ List.replicate (pageRound a - m.length) 0 := by
        have := hr
        simp at this
        exact this.symm
      have := pageRound_le_LENCAP hcap
      rw [hgw, List.length_append, List.length_replicate]
      omega
    · exact Option.noConfusion hr

theorem peekMem_fail {m : Mem} {a : Nat} (hm : m.length ≤ LENCAP)
    (ha : LENCAP ≤ a) : peekMem m a = none := by
  have h1 : m.get? a = none := List.get?_eq_none.mpr (le_trans hm ha)
  unfold peekMem
  simp only [h1]
  cases hr : resize_mem m a with
  | none => rfl
  | some m₂ =>
    have h2 : m₂.get? a = none := List.get?_eq_none.mpr (resize_len_le hm ha hr)
    simp only [h2]

theorem pokeMem_fail {m : Mem} {a : Nat} (v : Value) (hm : m.length ≤ LENCAP)
    (ha : LENCAP ≤ a) : pokeMem m a v = none := by
  unfold pokeMem
  rw [if_neg (by have := le_trans hm ha; omega)]
  cases hr : resize_mem m a with
  | none => rfl
  | some m₂ =>
    have h2 : ¬a < m₂.length := by
      have := resize_len_le hm ha hr
      omega
    simp only [if_neg h2]


/-! ## Machine-level lemmas -/

theorem IntcodeISS.ext' {s t : IntcodeISS} (hm : s.mem = t.mem) (hp : s.pc = t.pc)
    (hr : s.relative_base = t.relative_base) : s = t := by
  cases s
  cases t
  simp_all

theorem GrownMach_refl (s : IntcodeISS) : GrownMach s s :=
  ⟨mapEq_refl _, rfl, rfl, le_refl _, Or.inl rfl⟩

theorem GrownMach.trans {s t u : IntcodeISS} (h : GrownMach s t) (h' : GrownMach t u) :
    GrownMach s u := by
  obtain ⟨h1, h2, h3, h4, h5⟩ := h
  obtain ⟨g1, g2, g3, g4, g5⟩ := h'
  refine ⟨mapEq_trans h1 g1, g2.trans h2, g3.trans h3, le_trans h4 g4, ?_⟩
  rcases g5 with g5 | g5
  · rw [g5]
    exact h5
  · exact Or.inr g5

theorem peekM_spec {s : IntcodeISS} {a : Nat} {v : Value} {t : IntcodeISS}
    (h : s.peek a = some (v, t)) :
    GrownMach s t ∧ v = s.mem.getD a 0 ∧ a < t.mem.length := by
  unfold IntcodeISS.peek at h
  split at h
  · exact Option.noConfusion h
  · rename_i v' m hp
    obtain ⟨rfl, rfl⟩ : v' = v ∧ ({ s with mem := m } : IntcodeISS) = t := by
      simpa using h
    obtain ⟨hv, hmap, hlen, hlt, hgrow⟩ := peekMem_spec hp
    refine ⟨⟨hmap, rfl, rfl, hlen, ?_⟩, hv, hlt⟩
    rcases hgrow with h1 | h2
    · exact Or.inl (by simpa using h1)
    · exact Or.inr h2.2

theorem pokeM_spec {s : IntcodeISS} {a : Nat} {v : Value} {t : IntcodeISS}
    (h : s.poke a v = some t) :
    t.pc = s.pc ∧ t.relative_base = s.relative_base ∧
      t.mem.getD a 0 = v ∧ (∀ b, b ≠ a → t.mem.getD b 0 = s.mem.getD b 0) ∧
      s.mem.length ≤ t.mem.length ∧ a < t.mem.length ∧
      (t.mem.length = s.mem.length ∨
        (s.mem.length < t.mem.length ∧ t.mem.length ≤ LENCAP)) := by
  unfold IntcodeISS.poke at h
  split at h
  · exact Option.noConfusion h
  · rename_i m hp
    obtain rfl : ({ s with mem := m } : IntcodeISS) = t := by simpa using h
    obtain ⟨h1, h2, h3, h4, h5⟩ := pokeMem_spec hp
    exact ⟨rfl, rfl, h1, h2, h3, h4, h5⟩

theorem MachSim.pc_eq {s t : IntcodeISS} (h : MachSim s t) : s.pc = t.pc := h.1.2.1

theorem peek_simM {s₁ s₂ : IntcodeISS} (h : MachSim s₁ s₂) (a : Nat) :
    PairSim (s₁.peek a) (s₂.peek a) := by
  obtain ⟨⟨hmap, hpc, hrb⟩, hl₁, hl₂⟩ := h
  by_cases ha : a < LENCAP
  · obtain ⟨n₁, h₁⟩ := @peekMem_good s₁.mem a ha
    obtain ⟨n₂, h₂⟩ := @peekMem_good s₂.mem a ha
    right
    refine ⟨s₁.mem.getD a 0, { s₁ with mem := n₁ }, { s₂ with mem := n₂ }, ?_, ?_, ?_⟩
    · unfold IntcodeISS.peek
      simp only [h₁]
    · unfold IntcodeISS.peek
      simp only [h₂, hmap a]
    · obtain ⟨_, hm₁, _, _, hg₁⟩ := peekMem_spec h₁
      obtain ⟨_, hm₂, _, _, hg₂⟩ := peekMem_spec h₂
      refine ⟨⟨?_, hpc, hrb⟩, ?_, ?_⟩
      · exact mapEq_trans (mapEq_symm hm₁) (mapEq_trans hmap hm₂)
      · rcases hg₁ with hg | hg
        · simpa [hg] using hl₁
        · exact hg.2
      · rcases hg₂ with hg | hg
        · simpa [hg] using hl₂
        · exact hg.2
  · left
    constructor <;>
      · unfold IntcodeISS.peek
        rw [peekMem_fail (by assumption) (by omega)]

theorem poke_simM {s₁ s₂ : IntcodeISS} (h : MachSim s₁ s₂) (a : Nat) (v : Value) :
    (s₁.poke a v = none ∧ s₂.poke a v = none) ∨
      ∃ t₁ t₂, s₁.poke a v = some t₁ ∧ s₂.poke a v = some t₂ ∧ MachSim t₁ t₂ := by
  obtain ⟨⟨hmap, hpc, hrb⟩, hl₁, hl₂⟩ := h
  by_cases ha : a < LENCAP
  · obtain ⟨n₁, h₁⟩ := @pokeMem_good s₁.mem a v ha
    obtain ⟨n₂, h₂⟩ := @pokeMem_good s₂.mem a v ha
    right
    refine ⟨{ s₁ with mem := n₁ }, { s₂ with mem := n₂ }, ?_, ?_, ?_⟩
    · unfold IntcodeISS.poke
      simp only [h₁]
    · unfold IntcodeISS.poke
      simp only [h₂]
    · obtain ⟨k₁, k₂, k₃, k₄, k₅⟩ := pokeMem_spec h₁
      obtain ⟨g₁, g₂, g₃, g₄, g₅⟩ := pokeMem_spec h₂
      refine ⟨⟨?_, hpc, hrb⟩, ?_, ?_⟩
      · intro b
        by_cases hb : b = a
        · subst hb
          rw [k₁, g₁]
        · rw [k₂ b hb, g₂ b hb]
          exact hmap b
      · rcases k₅ with hg | hg
        · simpa [hg] using hl₁
        · exact hg.2
      · rcases g₅ with hg | hg
        · simpa [hg] using hl₂
        · exact hg.2
  · left
    constructor <;>
      · unfold IntcodeISS.poke
        rw [pokeMem_fail v (by assumption) (by omega)]

theorem PairSim.bind {α β : Type} {o₁ o₂ : Option (α × IntcodeISS)}
    {f g : α × IntcodeISS → Option (β × IntcodeISS)}
    (h : PairSim o₁ o₂)
    (hk : ∀ x t₁ t₂, MachSim t₁ t₂ → PairSim (f (x, t₁)) (g (x, t₂))) :
    PairSim (o₁ >>= f) (o₂ >>= g) := by
  rcases h with ⟨h1, h2⟩ | ⟨x, t₁, t₂, h1, h2, hsim⟩
  · rw [h1, h2]
    left
    exact ⟨rfl, rfl⟩
  · rw [h1, h2]
    exact hk x t₁ t₂ hsim

theorem addr_fetch_sim {s₁ s₂ : IntcodeISS} (h : MachSim s₁ s₂) (am v : Value) :
    PairSim (addr_fetch s₁ am v) (addr_fetch s₂ am v) := by
  have hrb : s₁.relative_base = s₂.relative_base := h.1.2.2
  unfold addr_fetch
  rw [hrb]
  split_ifs
  · exact Or.inr ⟨_, s₁, s₂, rfl, rfl, h⟩
  · exact Or.inr ⟨_, s₁, s₂, rfl, rfl, h⟩
  · exact Or.inr ⟨_, s₁, s₂, rfl, rfl, h⟩
  · exact Or.inl ⟨rfl, rfl⟩

theorem fetch_sim {s₁ s₂ : IntcodeISS} (h : MachSim s₁ s₂) (am v : Value) :
    PairSim (fetch s₁ am v) (fetch s₂ am v) := by
  have hrb : s₁.relative_base = s₂.relative_base := h.1.2.2
  unfold fetch
  rw [hrb]
  split_ifs
  · exact peek_simM h _
  · exact Or.inr ⟨v, s₁, s₂, rfl, rfl, h⟩
  · exact peek_simM h _
  · exact Or.inl ⟨rfl, rfl⟩

theorem resolveDAB_sim {s₁ s₂ : IntcodeISS} (h : MachSim s₁ s₂)
    (mk : Nat → Value → Value → Instruction) (md m1 m2 r1 r2 rd : Value) :
    PairSim (resolveDAB mk s₁ md m1 m2 r1 r2 rd)
      (resolveDAB mk s₂ md m1 m2 r1 r2 rd) := by
  unfold resolveDAB
  refine PairSim.bind (addr_fetch_sim h md rd) fun d t₁ t₂ h₁ => ?_
  dsimp only
  refine PairSim.bind (fetch_sim h₁ m1 r1) fun a u₁ u₂ h₂ => ?_
  dsimp only
  refine PairSim.bind (fetch_sim h₂ m2 r2) fun b w₁ w₂ h₃ => ?_
  dsimp only
  exact Or.inr ⟨mk d a b, w₁, w₂, rfl, rfl, h₃⟩

theorem resolveJump_sim {s₁ s₂ : IntcodeISS} (h : MachSim s₁ s₂)
    (mk : Value → Nat → Instruction) (m1 m2 r1 r2 : Value) :
    PairSim (resolveJump mk s₁ m1 m2 r1 r2) (resolveJump mk s₂ m1 m2 r1 r2) := by
  unfold resolveJump
  refine PairSim.bind (fetch_sim h m1 r1) fun a u₁ u₂ h₂ => ?_
  dsimp only
  refine PairSim.bind (fetch_sim h₂ m2 r2) fun b w₁ w₂ h₃ => ?_
  dsimp only
  exact Or.inr ⟨mk a (usizeOfInt b), w₁, w₂, rfl, rfl, h₃⟩

set_option maxHeartbeats 2000000 in
theorem decodeWith_sim {s₁ s₂ : IntcodeISS} (h : MachSim s₁ s₂)
    (md m2 m1 opcode : Value) :
    PairSim (decodeWith s₁ md m2 m1 opcode) (decodeWith s₂ md m2 m1 opcode) := by
  unfold decodeWith
  rw [(h.pc_eq : s₁.pc = s₂.pc)]
  refine PairSim.bind (peek_simM h _) fun r1 t₁ t₂ h₁ => ?_
  dsimp only
  rw [(h₁.pc_eq : t₁.pc = t₂.pc)]
  refine PairSim.bind (peek_simM h₁ _) fun r2 u₁ u₂ h₂ => ?_
  dsimp only
  rw [(h₂.pc_eq : u₁.pc = u₂.pc)]
  refine PairSim.bind (peek_simM h₂ _) fun rd w₁ w₂ h₃ => ?_
  dsimp only
  split_ifs
  · exact resolveDAB_sim h₃ _ _ _ _ _ _ _
  · exact resolveDAB_sim h₃ _ _ _ _ _ _ _
  · refine PairSim.bind (addr_fetch_sim h₃ m1 r1) fun d x₁ x₂ h₄ => ?_
    dsimp only
    exact Or.inr ⟨_, x₁, x₂, rfl, rfl, h₄⟩
  · refine PairSim.bind (fetch_sim h₃ m1 r1) fun a x₁ x₂ h₄ => ?_
    dsimp only
    exact Or.inr ⟨_, x₁, x₂, rfl, rfl, h₄⟩
  · exact resolveJump_sim h₃ _ _ _ _ _
  · exact resolveJump_sim h₃ _ _ _ _ _
  · exact resolveDAB_sim h₃ _ _ _ _ _ _ _
  · exact resolveDAB_sim h₃ _ _ _ _ _ _ _
  · refine PairSim.bind (fetch_sim h₃ m1 r1) fun a x₁ x₂ h₄ => ?_
    dsimp only
    exact Or.inr ⟨_, x₁, x₂, rfl, rfl, h₄⟩
  · exact Or.inr ⟨_, w₁, w₂, rfl, rfl, h₃⟩
  · exact Or.inl ⟨rfl, rfl⟩

theorem decode_sim {s₁ s₂ : IntcodeISS} (h : MachSim s₁ s₂) (addr : Nat) :
    PairSim (decode s₁ addr) (decode s₂ addr) := by
  unfold decode
  refine PairSim.bind (peek_simM h addr) fun word t₁ t₂ h₁ => ?_
  dsimp only
  exact decodeWith_sim h₁ _ _ _ _


/-! ## Executor simulation -/

theorem MachEq_refl (s : IntcodeISS) : MachEq s s := ⟨mapEq_refl _, rfl, rfl⟩

theorem OutcomeSim_refl (o : Option Outcome) : OutcomeSim o o := by
  cases o with
  | none => trivial
  | some oc =>
    cases oc with
    | crash => trivial
    | done r out s => exact ⟨rfl, rfl, MachEq_refl s⟩

theorem MachSim.step {u₁ u₂ : IntcodeISS} (h : MachSim u₁ u₂) (k : Nat) :
    MachSim { u₁ with pc := u₁.pc + k } { u₂ with pc := u₂.pc + k } := by
  obtain ⟨⟨hm, hp, hr⟩, l₁, l₂⟩ := h
  exact ⟨⟨hm, by simp [hp], hr⟩, l₁, l₂⟩

theorem MachSim.jump {u₁ u₂ : IntcodeISS} (h : MachSim u₁ u₂) (d : Nat) :
    MachSim { u₁ with pc := d } { u₂ with pc := d } := by
  obtain ⟨⟨hm, hp, hr⟩, l₁, l₂⟩ := h
  exact ⟨⟨hm, rfl, hr⟩, l₁, l₂⟩

theorem MachSim.rbo {u₁ u₂ : IntcodeISS} (h : MachSim u₁ u₂) (a : Value) :
    MachSim { u₁ with relative_base := u₁.relative_base + a, pc := u₁.pc + 2 }
      { u₂ with relative_base := u₂.relative_base + a, pc := u₂.pc + 2 } := by
  obtain ⟨⟨hm, hp, hr⟩, l₁, l₂⟩ := h
  exact ⟨⟨hm, by simp [hp], by simp [hr]⟩, l₁, l₂⟩

theorem computeAux_sim :
    ∀ (fuel : Nat) {s₁ s₂ : IntcodeISS}, MachSim s₁ s₂ → ∀ (input acc : List Value),
      OutcomeSim (computeAux fuel s₁ input acc) (computeAux fuel s₂ input acc) := by
  intro fuel
  induction fuel with
  | zero =>
    intro s₁ s₂ h input acc
    trivial
  | succ n ih =>
    intro s₁ s₂ h input acc
    rw [computeAux, computeAux]
    rw [(h.pc_eq : s₁.pc = s₂.pc)]
    rcases decode_sim h s₂.pc with ⟨e₁, e₂⟩ | ⟨inst, t₁, t₂, e₁, e₂, hsim⟩
    · simp only [e₁, e₂]
      trivial
    · simp only [e₁, e₂]
      cases inst with
      | Add d a b =>
        rcases poke_simM hsim d (a + b) with ⟨p₁, p₂⟩ | ⟨u₁, u₂, p₁, p₂, hps⟩
        · simp only [p₁, p₂]
          trivial
        · simp only [p₁, p₂]
          exact ih (hps.step 4) input acc
      | Mul d a b =>
        rcases poke_simM hsim d (a * b) with ⟨p₁, p₂⟩ | ⟨u₁, u₂, p₁, p₂, hps⟩
        · simp only [p₁, p₂]
          trivial
        · simp only [p₁, p₂]
          exact ih (hps.step 4) input acc
      | Get d =>
        cases input with
        | nil => exact ⟨rfl, rfl, hsim.1⟩
        | cons i rest =>
          rcases poke_simM hsim d i with ⟨p₁, p₂⟩ | ⟨u₁, u₂, p₁, p₂, hps⟩
          · simp only [p₁, p₂]
            trivial
          · simp only [p₁, p₂]
            exact ih (hps.step 2) rest acc
      | Put a => exact ih (hsim.step 2) input (a :: acc)
      | Jpt a d =>
        by_cases hz : a ≠ 0
        · simp only [if_pos hz]
          exact ih (hsim.jump d) input acc
        · simp only [if_neg hz]
          exact ih (hsim.step 3) input acc
      | Jpf a d =>
        by_cases hz : a = 0
        · simp only [if_pos hz]
          exact ih (hsim.jump d) input acc
        · simp only [if_neg hz]
          exact ih (hsim.step 3) input acc
      | Lt d a b =>
        rcases poke_simM hsim d (if a < b then 1 else 0) with ⟨p₁, p₂⟩ | ⟨u₁, u₂, p₁, p₂, hps⟩
        · simp only [p₁, p₂]
          trivial
        · simp only [p₁, p₂]
          exact ih (hps.step 4) input acc
      | Eq d a b =>
        rcases poke_simM hsim d (if a = b then 1 else 0) with ⟨p₁, p₂⟩ | ⟨u₁, u₂, p₁, p₂, hps⟩
        · simp only [p₁, p₂]
          trivial
        · simp only [p₁, p₂]
          exact ih (hps.step 4) input acc
      | Rbo a => exact ih (hsim.rbo a) input acc
      | Halt => exact ⟨rfl, rfl, hsim.1⟩


/-! ## State evolution through decode -/

theorem addr_fetch_spec {s : IntcodeISS} {am v : Value} {d : Nat} {t : IntcodeISS}
    (h : addr_fetch s am v = some (d, t)) : t = s := by
  unfold addr_fetch at h
  split_ifs at h <;>
    · simp only [Option.some.injEq, Prod.mk.injEq] at h
      exact h.2.symm

theorem fetch_spec {s : IntcodeISS} {am v x : Value} {t : IntcodeISS}
    (h : fetch s am v = some (x, t)) : GrownMach s t := by
  unfold fetch at h
  split_ifs at h
  · exact (peekM_spec h).1
  · simp only [Option.some.injEq, Prod.mk.injEq] at h
    rw [← h.2]
    exact GrownMach_refl s
  · exact (peekM_spec h).1

theorem grownBind {α β : Type} {o : Option (α × IntcodeISS)}
    {f : α × IntcodeISS → Option (β × IntcodeISS)} {y : β}
    {u s : IntcodeISS}
    (h : (o >>= f) = some (y, u))
    (ho : ∀ x t, o = some (x, t) → GrownMach s t)
    (hf : ∀ x t, o = some (x, t) → f (x, t) = some (y, u) → GrownMach t u) :
    GrownMach s u := by
  obtain ⟨⟨x, t⟩, h₁, h₂⟩ := Option.bind_eq_some.mp h
  exact (ho x t h₁).trans (hf x t h₁ h₂)

theorem resolveDAB_spec {mk : Nat → Value → Value → Instruction}
    {s : IntcodeISS} {md m1 m2 r1 r2 rd : Value} {i : Instruction} {t : IntcodeISS}
    (h : resolveDAB mk s md m1 m2 r1 r2 rd = some (i, t)) : GrownMach s t := by
  unfold resolveDAB at h
  refine grownBind h (fun d t₁ h₁ => ?_) (fun d t₁ h₁ h₂ => ?_)
  · rw [addr_fetch_spec h₁]
    exact GrownMach_refl s
  · dsimp only at h₂
    refine grownBind h₂ (fun a u h₃ => fetch_spec h₃) (fun a u h₃ h₄ => ?_)
    dsimp only at h₄
    refine grownBind h₄ (fun b w h₅ => fetch_spec h₅) (fun b w h₅ h₆ => ?_)
    dsimp only at h₆
    obtain ⟨-, rfl⟩ : mk d a b = i ∧ w = t := by simpa using h₆
    exact GrownMach_refl _

theorem resolveJump_spec {mk : Value → Nat → Instruction}
    {s : IntcodeISS} {m1 m2 r1 r2 : Value} {i : Instruction} {t : IntcodeISS}
    (h : resolveJump mk s m1 m2 r1 r2 = some (i, t)) : GrownMach s t := by
  unfold resolveJump at h
  refine grownBind h (fun a u h₁ => fetch_spec h₁) (fun a u h₁ h₂ => ?_)
  dsimp only at h₂
  refine grownBind h₂ (fun b w h₃ => fetch_spec h₃) (fun b w h₃ h₄ => ?_)
  dsimp only at h₄
  obtain ⟨-, rfl⟩ : mk a (usizeOfInt b) = i ∧ w = t := by simpa using h₄
  exact GrownMach_refl _

set_option maxHeartbeats 2000000 in
theorem decodeWith_spec {s : IntcodeISS} {md m2 m1 opcode : Value}
    {i : Instruction} {t : IntcodeISS}
    (h : decodeWith s md m2 m1 opcode = some (i, t)) : GrownMach s t := by
  unfold decodeWith at h
  refine grownBind h (fun r1 t₁ h₁ => (peekM_spec h₁).1) (fun r1 t₁ h₁ h₂ => ?_)
  dsimp only at h₂
  refine grownBind h₂ (fun r2 t₂ h₃ => (peekM_spec h₃).1) (fun r2 t₂ h₃ h₄ => ?_)
  dsimp only at h₄
  refine grownBind h₄ (fun rd t₃ h₅ => (peekM_spec h₅).1) (fun rd t₃ h₅ h₆ => ?_)
  dsimp only at h₆
  split_ifs at h₆
  · exact resolveDAB_spec h₆
  · exact resolveDAB_spec h₆
  · refine grownBind h₆ (fun d u h₇ => ?_) (fun d u h₇ h₈ => ?_)
    · rw [addr_fetch_spec h₇]
      exact GrownMach_refl _
    · dsimp only at h₈
      obtain ⟨-, rfl⟩ : Instruction.Get d = i ∧ u = t := by simpa using h₈
      exact GrownMach_refl _
  · refine grownBind h₆ (fun a u h₇ => fetch_spec h₇) (fun a u h₇ h₈ => ?_)
    dsimp only at h₈
    obtain ⟨-, rfl⟩ : Instruction.Put a = i ∧ u = t := by simpa using h₈
    exact GrownMach_refl _
  · exact resolveJump_spec h₆
  · exact resolveJump_spec h₆
  · exact resolveDAB_spec h₆
  · exact resolveDAB_spec h₆
  · refine grownBind h₆ (fun a u h₇ => fetch_spec h₇) (fun a u h₇ h₈ => ?_)
    dsimp only at h₈
    obtain ⟨-, rfl⟩ : Instruction.Rbo a = i ∧ u = t := by simpa using h₈
    exact GrownMach_refl _
  · obtain ⟨-, rfl⟩ : Instruction.Halt = i ∧ t₃ = t := by simpa using h₆
    exact GrownMach_refl _

theorem decode_spec {s : IntcodeISS} {addr : Nat} {i : Instruction} {t : IntcodeISS}
    (h : decode s addr = some (i, t)) : GrownMach s t := by
  unfold decode at h
  refine grownBind h (fun word t₁ h₁ => (peekM_spec h₁).1) (fun word t₁ h₁ h₂ => ?_)
  dsimp only at h₂
  exact decodeWith_spec h₂

theorem grown_machSim {s t : IntcodeISS} (h : GrownMach s t) :
    t = s ∨ MachSim t s := by
  obtain ⟨hm, hp, hr, hlen, hd⟩ := h
  rcases hd with hd | hd
  · exact Or.inl (IntcodeISS.ext' hd hp hr)
  · exact Or.inr ⟨⟨mapEq_symm hm, hp, hr⟩, hd, le_trans hlen hd⟩


/-! ## Claim theorems -/

/-- Claim C1: if the fetch-decode-execute loop reaches an Input opcode
(`Instruction.Get`) while the input sequence is exhausted, `compute`
returns `NeedInput` together with the output accumulated so far, leaves
the instruction pointer, relative base and address-to-value mapping of
the machine unchanged, and the same pending Input instruction (same
write target) is decoded again verbatim on a later call, which then
consumes the first value of a non-empty input sequence. -/
theorem input_suspension_resume {s : IntcodeISS} {d : Nat} {s₁ : IntcodeISS}
    (h : decode s s.pc = some (Instruction.Get d, s₁)) :
    (∀ fuel acc, computeAux (fuel + 1) s [] acc =
      some (Outcome.done StopReason.NeedInput acc.reverse s₁)) ∧
    (s₁.pc = s.pc ∧ s₁.relative_base = s.relative_base ∧ mapEq s₁.mem s.mem) ∧
    (∃ s₂, decode s₁ s₁.pc = some (Instruction.Get d, s₂) ∧
      ∀ i rest fuel acc,
        computeAux (fuel + 1) s₁ (i :: rest) acc =
          match s₂.poke d i with
          | none => some Outcome.crash
          | some s₃ => computeAux fuel { s₃ with pc := s₃.pc + 2 } rest acc) := by
  have hg := decode_spec h
  refine ⟨?_, ⟨hg.2.1, hg.2.2.1, mapEq_symm hg.1⟩, ?_⟩
  · intro fuel acc
    simp only [computeAux, h]
  · have hdec : ∃ s₂, decode s₁ s₁.pc = some (Instruction.Get d, s₂) := by
      rcases grown_machSim hg with heq | hsim
      · rw [heq] at h ⊢
        exact ⟨s, h⟩
      · rw [hg.2.1]
        rcases decode_sim hsim s.pc with ⟨e₁, e₂⟩ | ⟨x, t₁, t₂, e₁, e₂, -⟩
        · rw [h] at e₂
          exact Option.noConfusion e₂
        · rw [h] at e₂
          obtain ⟨rfl, -⟩ : x = Instruction.Get d ∧ t₂ = s₁ := by
            simpa using e₂.symm
          exact ⟨t₁, e₁⟩
    obtain ⟨s₂, hdec⟩ := hdec
    refine ⟨s₂, hdec, ?_⟩
    intro i rest fuel acc
    simp only [computeAux, hdec]

set_option maxRecDepth 8000 in
/-- Claim C1 witness: the one-instruction program `[3, 0]` run with no
input suspends with `NeedInput`, empty output, and an unmoved pointer. -/
theorem input_suspension_resume_witness :
    computeAux 1 (IntcodeISS.new [3, 0]) [] [] =
      some (Outcome.done StopReason.NeedInput []
        ⟨[3, 0] ++ List.replicate 1022 0, 0, 0⟩) ∧
    (⟨[3, 0] ++ List.replicate 1022 0, 0, 0⟩ : IntcodeISS).pc =
      (IntcodeISS.new [3, 0]).pc := by
  have h : decode (IntcodeISS.new [3, 0]) (IntcodeISS.new [3, 0]).pc =
      some (Instruction.Get 0, ⟨[3, 0] ++ List.replicate 1022 0, 0, 0⟩) := by
    decide
  obtain ⟨ha, hb, -⟩ := input_suspension_resume h
  exact ⟨ha 0 [], hb.1⟩

/-- Claim C9: `peek` has no observable side effects: it preserves the
instruction pointer, the relative base and the address-to-value mapping,
every subsequent `peek` returns the same value as it would have before,
and any subsequent `compute` run behaves exactly as if the peek had not
happened (same termination behavior, stop reason and output, and
observationally equal final machines). -/
theorem peek_no_side_effects {s : IntcodeISS} {addr : Nat} {v : Value}
    {s' : IntcodeISS} (h : s.peek addr = some (v, s')) :
    s'.pc = s.pc ∧ s'.relative_base = s.relative_base ∧ mapEq s'.mem s.mem ∧
      (∀ a, (s'.peek a).map Prod.fst = (s.peek a).map Prod.fst) ∧
      (∀ fuel input acc,
        OutcomeSim (computeAux fuel s' input acc) (computeAux fuel s input acc)) := by
  have hg := (peekM_spec h).1
  rcases grown_machSim hg with heq | hsim
  · rw [heq]
    exact ⟨rfl, rfl, mapEq_refl _, fun a => rfl,
      fun fuel input acc => OutcomeSim_refl _⟩
  · refine ⟨hg.2.1, hg.2.2.1, mapEq_symm hg.1, ?_, ?_⟩
    · intro a
      rcases peek_simM hsim a with ⟨e₁, e₂⟩ | ⟨x, t₁, t₂, e₁, e₂, -⟩
      · rw [e₁, e₂]
      · rw [e₁, e₂]
        simp
    · intro fuel input acc
      exact computeAux_sim fuel hsim input acc

set_option maxRecDepth 8000 in
/-- Claim C9 witness: peeking address 0 of the empty-program machine
succeeds (growing memory by one page), and a subsequent run is
observationally unaffected. -/
theorem peek_no_side_effects_witness :
    (⟨List.replicate 1024 0, 0, 0⟩ : IntcodeISS).pc = (IntcodeISS.new []).pc ∧
    OutcomeSim (computeAux 1 ⟨List.replicate 1024 0, 0, 0⟩ [] [])
      (computeAux 1 (IntcodeISS.new []) [] []) := by
  have h : (IntcodeISS.new []).peek 0 =
      some (0, ⟨List.replicate 1024 0, 0, 0⟩) := by decide
  obtain ⟨h1, -, -, -, h5⟩ := peek_no_side_effects h
  exact ⟨h1, h5 1 [] []⟩

/-- Claim C10: `compute` is deterministic and depends only on the
observable machine state: two machines with equal address-to-value
mappings, equal instruction pointers and equal relative bases (both
within the memory capacity bound every reachable vector satisfies),
run on equal inputs, produce the same termination behavior, the same
stop reason and output, and observationally equal final machines. -/
theorem run_deterministic (fuel : Nat) (s₁ s₂ : IntcodeISS) (input : List Value)
    (hmem : mapEq s₁.mem s₂.mem) (hpc : s₁.pc = s₂.pc)
    (hrb : s₁.relative_base = s₂.relative_base)
    (hl₁ : s₁.mem.length ≤ LENCAP) (hl₂ : s₂.mem.length ≤ LENCAP) :
    OutcomeSim (compute fuel s₁ input) (compute fuel s₂ input) :=
  computeAux_sim fuel ⟨⟨hmem, hpc, hrb⟩, hl₁, hl₂⟩ input []

/-- Claim C10 witness: `[99]` and `[99, 0, 0, 0]` denote the same
mapping and run identically. -/
theorem run_deterministic_witness :
    OutcomeSim (compute 1 ⟨[99], 0, 0⟩ []) (compute 1 ⟨[99, 0, 0, 0], 0, 0⟩ []) := by
  refine run_deterministic 1 ⟨[99], 0, 0⟩ ⟨[99, 0, 0, 0], 0, 0⟩ [] ?_ rfl rfl
    (by decide) (by decide)
  intro a
  rcases a with _ | _ | _ | _ | a <;>
    simp [List.getD_eq_getElem?_getD]


theorem peekM_fail {s : IntcodeISS} {a : Nat} (hm : s.mem.length ≤ LENCAP)
    (ha : LENCAP ≤ a) : s.peek a = none := by
  unfold IntcodeISS.peek
  rw [peekMem_fail hm ha]

theorem pokeM_fail {s : IntcodeISS} {a : Nat} (x : Value)
    (hm : s.mem.length ≤ LENCAP) (ha : LENCAP ≤ a) : s.poke a x = none := by
  unfold IntcodeISS.poke
  rw [pokeMem_fail x hm ha]

theorem peekM_good {s : IntcodeISS} {a : Nat} (ha : a < LENCAP) :
    ∃ t, s.peek a = some (s.mem.getD a 0, t) := by
  obtain ⟨m', hm⟩ := @peekMem_good s.mem a ha
  unfold IntcodeISS.peek
  rw [hm]
  exact ⟨_, rfl⟩

/-- Claim C4: operand resolution that yields a negative effective address
is fatal.  A read operand in position mode with a negative raw value, or
in relative mode with a negative `relative_base + value`, panics inside
`fetch` (the `as usize` cast wraps the value to an address of at least
`2^63`, far beyond any address the page-growing memory can serve); a
write target resolved by `addr_fetch` to such an address makes the
subsequent `poke` panic; and a failed decode makes the whole `compute`
call crash, so execution never continues.  The value-range hypotheses are
the `i64` range of the cells; the length hypothesis is the capacity bound
every constructible memory vector satisfies. -/
theorem negative_address_fatal (s : IntcodeISS) (hm : s.mem.length ≤ LENCAP) :
    (∀ v : Int, -(2 ^ 63) ≤ v → v < 0 → fetch s 0 v = none) ∧
    (∀ v : Int, -(2 ^ 63) ≤ s.relative_base + v → s.relative_base + v < 0 →
      fetch s 2 v = none) ∧
    (∀ v x : Int, -(2 ^ 63) ≤ v → v < 0 →
      (do
        let (d, t) ← addr_fetch s 0 v
        t.poke d x) = none) ∧
    (∀ v x : Int, -(2 ^ 63) ≤ s.relative_base + v → s.relative_base + v < 0 →
      (do
        let (d, t) ← addr_fetch s 2 v
        t.poke d x) = none) ∧
    (∀ fuel : Nat, ∀ input acc : List Value, decode s s.pc = none →
      computeAux (fuel + 1) s input acc = some Outcome.crash) := by
  have hcap : ∀ v : Int, -(2 ^ 63) ≤ v → v < 0 → LENCAP ≤ usizeOfInt v := by
    intro v h1 h2
    have h3 := usizeOfInt_neg h1 h2
    have h4 := LENCAP_lt
    omega
  refine ⟨?_, ?_, ?_, ?_, ?_⟩
  · intro v h1 h2
    unfold fetch
    rw [if_pos rfl]
    exact peekM_fail hm (hcap v h1 h2)
  · intro v h1 h2
    unfold fetch
    rw [if_neg (by decide), if_neg (by decide), if_pos rfl]
    exact peekM_fail hm (hcap _ h1 h2)
  · intro v x h1 h2
    have ha : addr_fetch s 0 v = some (usizeOfInt v, s) := by
      unfold addr_fetch
      rw [if_pos rfl]
    rw [ha]
    show s.poke (usizeOfInt v) x = none
    exact pokeM_fail x hm (hcap v h1 h2)
  · intro v x h1 h2
    have ha : addr_fetch s 2 v = some (usizeOfInt (s.relative_base + v), s) := by
      unfold addr_fetch
      rw [if_neg (by decide), if_neg (by decide), if_pos rfl]
    rw [ha]
    show s.poke (usizeOfInt (s.relative_base + v)) x = none
    exact pokeM_fail x hm (hcap _ h1 h2)
  · intro fuel input acc hd
    simp only [computeAux, hd]

set_option maxRecDepth 8000 in
/-- Claim C4 witness: on the freshly loaded empty program, resolving the
negative raw operand -3 (position mode) or -7 (relative mode, base 0)
panics, the corresponding write target makes `poke` panic, and a machine
whose decode fails crashes. -/
theorem negative_address_fatal_witness :
    fetch (IntcodeISS.new []) 0 (-3) = none ∧
    fetch (IntcodeISS.new []) 2 (-7) = none ∧
    (do
      let (d, t) ← addr_fetch (IntcodeISS.new []) 0 (-3)
      t.poke d 9) = none ∧
    (do
      let (d, t) ← addr_fetch (IntcodeISS.new []) 2 (-7)
      t.poke d 9) = none ∧
    computeAux 1 (IntcodeISS.new []) [] [] = some Outcome.crash := by
  obtain ⟨h1, h2, h3, h4, h5⟩ := negative_address_fatal (IntcodeISS.new []) (by decide)
  exact ⟨h1 (-3) (by decide) (by decide), h2 (-7) (by decide) (by decide),
    h3 (-3) 9 (by decide) (by decide), h4 (-7) 9 (by decide) (by decide),
    h5 0 [] [] (by decide)⟩

theorem decodeWith_none {s : IntcodeISS} {md m2 m1 opcode : Value}
    (hop : opcode ∉ ([1, 2, 3, 4, 5, 6, 7, 8, 9, 99] : List Value)) :
    decodeWith s md m2 m1 opcode = none := by
  have hni : ¬(opcode = 1 ∨ opcode = 2 ∨ opcode = 3 ∨ opcode = 4 ∨ opcode = 5 ∨
      opcode = 6 ∨ opcode = 7 ∨ opcode = 8 ∨ opcode = 9 ∨ opcode = 99) := by
    simpa using hop
  push_neg at hni
  obtain ⟨h1, h2, h3, h4, h5, h6, h7, h8, h9, h99⟩ := hni
  unfold decodeWith
  cases hp1 : s.peek (s.pc + 1) with
  | none => rfl
  | some p1 =>
    obtain ⟨r1, t₁⟩ := p1
    simp only [Option.bind_eq_bind, Option.some_bind]
    cases hp2 : t₁.peek (t₁.pc + 2) with
    | none => rfl
    | some p2 =>
      obtain ⟨r2, t₂⟩ := p2
      simp only [Option.some_bind]
      cases hp3 : t₂.peek (t₂.pc + 3) with
      | none => rfl
      | some p3 =>
        obtain ⟨rd, t₃⟩ := p3
        simp only [Option.some_bind]
        rw [if_neg h1, if_neg h2, if_neg h3, if_neg h4, if_neg h5, if_neg h6,
          if_neg h7, if_neg h8, if_neg h9, if_neg h99]

/-- Claim C5 (amended): decoding an instruction whose opcode (the low two
decimal digits of the cell) is outside {1,...,9,99} always fails, and the
run crashes there without performing any state transition; decoding an
opcode inside the set can still fail (through an unimplemented addressing
mode or a memory fault during operand resolution), but never through the
opcode dispatch itself: for each opcode in the set there are machine
states on which decode succeeds. -/
theorem unknown_opcode_fatal :
    (∀ (s : IntcodeISS) (w : Value) (s₁ : IntcodeISS) (fuel : Nat)
      (input acc : List Value),
      s.peek s.pc = some (w, s₁) →
      (splitWord w).2.2.2 ∉ ([1, 2, 3, 4, 5, 6, 7, 8, 9, 99] : List Value) →
      decode s s.pc = none ∧ computeAux (fuel + 1) s input acc = some Outcome.crash) ∧
    (decode (IntcodeISS.new [11101, 0, 0, 0]) 0 ≠ none ∧
     decode (IntcodeISS.new [11102, 0, 0, 0]) 0 ≠ none ∧
     decode (IntcodeISS.new [103, 0, 0, 0]) 0 ≠ none ∧
     decode (IntcodeISS.new [104, 0, 0, 0]) 0 ≠ none ∧
     decode (IntcodeISS.new [1105, 0, 0, 0]) 0 ≠ none ∧
     decode (IntcodeISS.new [1106, 0, 0, 0]) 0 ≠ none ∧
     decode (IntcodeISS.new [11107, 0, 0, 0]) 0 ≠ none ∧
     decode (IntcodeISS.new [11108, 0, 0, 0]) 0 ≠ none ∧
     decode (IntcodeISS.new [109, 0, 0, 0]) 0 ≠ none ∧
     decode (IntcodeISS.new [99, 0, 0, 0]) 0 ≠ none) := by
  constructor
  · intro s w s₁ fuel input acc hp hop
    have hd : decode s s.pc = none := by
      unfold decode
      rw [hp]
      dsimp only
      exact decodeWith_none hop
    exact ⟨hd, by simp only [computeAux, hd]⟩
  · refine ⟨?_, ?_, ?_, ?_, ?_, ?_, ?_, ?_, ?_, ?_⟩ <;> decide

/-- Claim C5 witness: the unrecognized opcode 50 makes decode fail and
the run crash. -/
theorem unknown_opcode_fatal_witness :
    decode (IntcodeISS.new [50]) (IntcodeISS.new [50]).pc = none ∧
    computeAux 1 (IntcodeISS.new [50]) [] [] = some Outcome.crash := by
  obtain ⟨hmain, -⟩ := unknown_opcode_fatal
  exact hmain (IntcodeISS.new [50]) 50 (IntcodeISS.new [50]) 0 [] []
    (by decide) (by decide)

/-- Claim C5 counterexample: decoding can fail even when the opcode is in
the recognized set {1,...,9,99}: the cell 304 has opcode 4 but parameter
mode 3, and `fetch` hits `unimplemented!()`. -/
theorem known_opcode_decode_can_fail :
    decode (IntcodeISS.new [304, 0, 0, 0]) 0 = none ∧
    (splitWord 304).2.2.2 = 4 := by
  exact ⟨by decide, by decide⟩

theorem decodeWith_halt {s : IntcodeISS} (md m2 m1 : Value)
    (hpc : s.pc + 3 < LENCAP) :
    ∃ t, decodeWith s md m2 m1 99 = some (Instruction.Halt, t) := by
  obtain ⟨t₁, hp1⟩ := @peekM_good s (s.pc + 1) (by omega)
  have ht₁ : t₁.pc = s.pc := ((peekM_spec hp1).1).2.1
  obtain ⟨t₂, hp2⟩ := @peekM_good t₁ (t₁.pc + 2) (by rw [ht₁]; omega)
  have ht₂ : t₂.pc = t₁.pc := ((peekM_spec hp2).1).2.1
  obtain ⟨t₃, hp3⟩ := @peekM_good t₂ (t₂.pc + 3) (by rw [ht₂, ht₁]; omega)
  refine ⟨t₃, ?_⟩
  unfold decodeWith
  rw [hp1]
  simp only [Option.bind_eq_bind, Option.some_bind]
  rw [hp2]
  simp only [Option.some_bind]
  rw [hp3]
  simp only [Option.some_bind]
  simp

theorem decode_halt {s : IntcodeISS} (hw : s.mem.getD s.pc 0 = 99)
    (hpc : s.pc + 3 < LENCAP) :
    ∃ t, decode s s.pc = some (Instruction.Halt, t) := by
  obtain ⟨t₀, hp0⟩ := @peekM_good s s.pc (by omega)
  rw [hw] at hp0
  have ht₀ : t₀.pc = s.pc := ((peekM_spec hp0).1).2.1
  obtain ⟨t, ht⟩ := @decodeWith_halt t₀ 0 0 0 (by rw [ht₀]; omega)
  refine ⟨t, ?_⟩
  unfold decode
  rw [hp0]
  simp only [Option.bind_eq_bind, Option.some_bind]
  have hs : splitWord 99 = (0, 0, 0, 99) := by decide
  rw [hs]
  exact ht

/-- Claim C7 (amended to nonempty programs; the loader never produces an
empty program): running a freshly loaded nonempty program all of whose
cells are the halt opcode 99 returns `(ProgramHalt, [])`, and afterwards
`peek 0` still returns the first cell of the loaded program. -/
theorem halt_program_halts {prog : List Value} (hne : prog ≠ [])
    (h99 : ∀ c ∈ prog, c = (99 : Value)) (fuel : Nat) (input : List Value) :
    ∃ s', compute (fuel + 1) (IntcodeISS.new prog) input =
        some (Outcome.done StopReason.ProgramHalt [] s') ∧
      ∃ s'', s'.peek 0 = some (prog.getD 0 0, s'') := by
  have hlen : 0 < prog.length := List.length_pos.mpr hne
  have hw : (IntcodeISS.new prog).mem.getD (IntcodeISS.new prog).pc 0 = 99 := by
    show prog.getD 0 0 = 99
    cases prog with
    | nil => simp at hlen
    | cons c l => exact h99 c (List.mem_cons_self c l)
  have hpc3 : (IntcodeISS.new prog).pc + 3 < LENCAP := by
    show 0 + 3 < LENCAP
    decide
  obtain ⟨t, ht⟩ := decode_halt hw hpc3
  have hg := decode_spec ht
  refine ⟨t, ?_, ?_⟩
  · unfold compute
    simp only [computeAux, ht, List.reverse_nil]
  · obtain ⟨t', hp⟩ := @peekM_good t 0 (by decide)
    have hv : t.mem.getD 0 0 = prog.getD 0 0 := (hg.1 0).symm
    rw [hv] at hp
    exact ⟨t', hp⟩

/-- Claim C7 witness: the one-cell program `[99]` halts with empty
output. -/
theorem halt_program_halts_witness :
    (compute 1 (IntcodeISS.new [99]) []).isSome = true := by
  obtain ⟨s', h1, -⟩ := @halt_program_halts [99] (by decide)
    (by
      intro c hc
      simpa using hc) 0 []
  rw [h1]
  rfl

set_option maxRecDepth 8000 in
/-- Claim C7 counterexample: the empty program (vacuously "all cells are
99") does not halt cleanly: decoding the zero-filled cell 0 panics, so
the run crashes instead of returning `(ProgramHalt, [])`. -/
theorem empty_program_crashes :
    compute 1 (IntcodeISS.new []) [] = some Outcome.crash := by decide


/-! ## Memory-operation sequences -/

theorem runMemOps_spec :
    ∀ (ops : List MemOp) (m m' : Mem), runMemOps m ops = some m' →
      (∀ a, a ∉ writtenAddrs ops → m'.getD a 0 = m.getD a 0) ∧
        m.length ≤ m'.length := by
  intro ops
  induction ops with
  | nil =>
    intro m m' h
    obtain rfl : m = m' := by simpa [runMemOps] using h
    exact ⟨fun a _ => rfl, le_refl _⟩
  | cons op rest ih =>
    intro m m' h
    cases op with
    | read a =>
      unfold runMemOps at h
      split at h
      · exact Option.noConfusion h
      · rename_i v m₂ heq
        obtain ⟨ih1, ih2⟩ := ih m₂ m' h
        obtain ⟨-, hmap, hlen, -, -⟩ := peekMem_spec heq
        constructor
        · intro b hb
          rw [ih1 b hb, ← hmap b]
        · omega
    | write a v =>
      unfold runMemOps at h
      split at h
      · exact Option.noConfusion h
      · rename_i m₂ heq
        obtain ⟨ih1, ih2⟩ := ih m₂ m' h
        obtain ⟨-, k₂, hlen, -, -⟩ := pokeMem_spec heq
        constructor
        · intro b hb
          have hb' : ¬(b = a ∨ b ∈ writtenAddrs rest) := by
            rw [← List.mem_cons]
            exact hb
          push_neg at hb'
          rw [ih1 b hb'.2, k₂ b hb'.1]
        · omega

/-- Claim C2 (amended): across any sequence of memory operations in which
every single operation succeeds (none hits the `Vec` capacity panic),
any address not written by the sequence keeps its original value — so any
never-written address at or beyond the loaded program reads as 0, with
the zero fill of growth included — and the backing storage never
shrinks. -/
theorem memory_zero_fill_invariant {prog : List Value} {ops : List MemOp}
    {m' : Mem} (h : runMemOps prog ops = some m') :
    (∀ a, a ∉ writtenAddrs ops → m'.getD a 0 = prog.getD a 0) ∧
    prog.length ≤ m'.length ∧
    (∀ a, a ∉ writtenAddrs ops → prog.length ≤ a →
      ∀ v m'', peekMem m' a = some (v, m'') → v = 0) := by
  obtain ⟨h1, h2⟩ := runMemOps_spec ops prog m' h
  refine ⟨h1, h2, ?_⟩
  intro a ha hlen v m'' hp
  have hv := (peekMem_spec hp).1
  rw [hv, h1 a ha, getD_of_len_le hlen]

set_option maxRecDepth 8000 in
/-- Claim C2 witness: on the program `[7]`, a read of address 3 and a
write of 5 to address 1 leave address 0 holding 7, and memory no
shorter. -/
theorem memory_zero_fill_invariant_witness :
    (List.getD (((List.replicate 1024 0 : Mem).set 0 7).set 1 5) 0 0 = 7) ∧
    (1 : Nat) ≤ (((List.replicate 1024 0 : Mem).set 0 7).set 1 5).length := by
  have hrun : runMemOps [7] [MemOp.read 3, MemOp.write 1 5] =
      some (((List.replicate 1024 0 : Mem).set 0 7).set 1 5) := by decide
  obtain ⟨h1, h2, -⟩ := memory_zero_fill_invariant hrun
  constructor
  · exact (h1 0 (by decide)).trans (by rfl)
  · exact h2

/-- Claim C2 counterexample: reading the never-written address `2^61`
does not return 0 — it panics, because growing the vector to cover it
would exceed `isize::MAX` bytes (`Vec` "capacity overflow"). -/
theorem huge_read_panics :
    runMemOps ([] : Mem) [MemOp.read (2 ^ 61)] = none := by decide

/-- Claim C6 (amended): whenever `poke(addr, v)` succeeds — which it does
for every address up to the page-growth capacity bound, including
addresses beyond the loaded program — the following `peek(addr)` returns
exactly `v` (and performs no further growth).  A poke beyond the
capacity bound panics instead (see the counterexample). -/
theorem poke_then_peek {s : IntcodeISS} {a : Nat} {v : Value} {t : IntcodeISS}
    (h : s.poke a v = some t) : t.peek a = some (v, t) := by
  obtain ⟨hpc, hrb, hval, -, -, hlt, -⟩ := pokeM_spec h
  have hmem : peekMem t.mem a = some (v, t.mem) := by
    unfold peekMem
    rw [get?_eq_some_getD hlt, hval]
  unfold IntcodeISS.peek
  rw [hmem]

set_option maxRecDepth 8000 in
/-- Claim C6 witness: writing 7 at address 5 of the freshly loaded empty
program (which grows memory by a page) and peeking it back yields 7. -/
theorem poke_then_peek_witness :
    (IntcodeISS.new []).poke 5 7 =
      some ⟨(List.replicate 1024 0).set 5 7, 0, 0⟩ ∧
    (⟨(List.replicate 1024 0).set 5 7, 0, 0⟩ : IntcodeISS).peek 5 =
      some (7, ⟨(List.replicate 1024 0).set 5 7, 0, 0⟩) := by
  have h : (IntcodeISS.new []).poke 5 7 =
      some ⟨(List.replicate 1024 0).set 5 7, 0, 0⟩ := by decide
  exact ⟨h, poke_then_peek h⟩

/-- Claim C6 counterexample: `poke(2^63, 7)` does not store a value that
`peek` could read back — it panics on the capacity-overflow resize. -/
theorem poke_beyond_capacity_panics :
    (IntcodeISS.new []).poke (2 ^ 63) 7 = none := by decide

/-! ## The decoder digit split -/

/-- Claim C3 (amended to non-negative instruction cells): for every
cell value `w ≥ 0` the decoder split agrees with the specified decimal
reading — opcode = `w mod 100`, first parameter mode = the hundreds
digit, second = the thousands digit, third = the ten-thousands digit.
For negative cells the source uses Rust truncated division/remainder,
which is not the mathematical mod (see the counterexample). -/
theorem decoder_digit_split (w : Int) (hw : 0 ≤ w) :
    splitWord w = specSplitWord w := by
  have e1 : w.tdiv 10000 = w / 10000 := Int.tdiv_eq_ediv hw (by norm_num)
  have e2 : w.tdiv 1000 = w / 1000 := Int.tdiv_eq_ediv hw (by norm_num)
  have e3 : w.tdiv 100 = w / 100 := Int.tdiv_eq_ediv hw (by norm_num)
  have e4 : w.tmod 100 = w % 100 := Int.tmod_eq_emod hw (by norm_num)
  have n1 : 0 ≤ w / 10000 := Int.ediv_nonneg hw (by norm_num)
  have n2 : 0 ≤ w / 1000 := Int.ediv_nonneg hw (by norm_num)
  have n3 : 0 ≤ w / 100 := Int.ediv_nonneg hw (by norm_num)
  unfold splitWord specSplitWord
  rw [e1, e2, e3, e4, Int.tmod_eq_emod n1 (by norm_num),
    Int.tmod_eq_emod n2 (by norm_num), Int.tmod_eq_emod n3 (by norm_num)]

/-- Claim C3 witness: the split of the cell 21002 — opcode 2, modes
(0, 1, 2) — agrees with the decimal-digit reading. -/
theorem decoder_digit_split_witness :
    splitWord 21002 = specSplitWord 21002 ∧ splitWord 21002 = (2, 1, 0, 2) :=
  ⟨decoder_digit_split 21002 (by decide), by decide⟩

set_option maxRecDepth 8000 in
/-- Claim C3 counterexample: for the negative cell -101 the decoder does
not compute `value mod 100` (nor the decimal digits): Rust truncated
remainder gives opcode -1 where the mathematical mod gives 99.
Consequently the one-cell program `[-1]` fails to decode (panic) even
though `(-1) mod 100 = 99` would name the halt opcode. -/
theorem negative_word_split_differs :
    splitWord (-101) ≠ specSplitWord (-101) ∧
    (splitWord (-101)).2.2.2 = -1 ∧
    (specSplitWord (-101)).2.2.2 = 99 ∧
    decode (IntcodeISS.new [-1]) 0 = none ∧
    (specSplitWord (-1)).2.2.2 = 99 :=
  ⟨by decide, by decide, by decide, by decide, by decide⟩

end Intcode

namespace Day7

/-! ## The initialization phase of the feedback pipeline -/

theorem ampInitTrace_spec (fuel : Nat) (amp_sw : List Value) :
    ∀ (ps : List Value) (c : Value) (l : List ((Value × Value) × Value)),
      ampInitTrace fuel amp_sw c ps = some l →
      l.length = ps.length ∧
      (∀ i, i < l.length → (l.getD i ((0, 0), 0)).1.1 = ps.getD i 0) ∧
      (0 < l.length → (l.getD 0 ((0, 0), 0)).1.2 = c) ∧
      (∀ i, i + 1 < l.length →
        (l.getD (i + 1) ((0, 0), 0)).1.2 = (l.getD i ((0, 0), 0)).2) := by
  intro ps
  induction ps with
  | nil =>
    intro c l h
    obtain rfl : ([] : List ((Value × Value) × Value)) = l := by
      simpa [ampInitTrace] using h
    exact ⟨rfl, fun i hi => absurd hi (by simp), fun hi => absurd hi (by simp),
      fun i hi => absurd hi (by simp)⟩
  | cons p rest ihp =>
    intro c l h
    unfold ampInitTrace at h
    obtain ⟨rec1, h₁, h₂⟩ := Option.bind_eq_some.mp h
    obtain ⟨rest', h₃, h₄⟩ := Option.bind_eq_some.mp h₂
    obtain rfl : rec1 :: rest' = l := by simpa using h₄
    obtain ⟨ih1, ih2, ih3, ih4⟩ := ihp rec1.2 rest' h₃
    have hfst : rec1.1 = (p, c) := by
      unfold ampInitStep at h₁
      obtain ⟨r, hr, h₅⟩ := Option.bind_eq_some.mp h₁
      cases r with
      | crash => simp at h₅
      | done reason out m =>
        dsimp only at h₅
        obtain ⟨o, ho, h₆⟩ := Option.bind_eq_some.mp h₅
        obtain rfl : ((p, c), o) = rec1 := by simpa using h₆
        rfl
    refine ⟨?_, ?_, ?_, ?_⟩
    · simp [ih1]
    · intro i hi
      cases i with
      | zero =>
        simp only [List.getD_cons_zero]
        rw [hfst]
      | succ i =>
        simp only [List.getD_cons_succ]
        exact ih2 i (by simpa using hi)
    · intro hpos
      simp only [List.getD_cons_zero]
      rw [hfst]
    · intro i hi
      cases i with
      | zero =>
        simp only [List.getD_cons_succ, List.getD_cons_zero]
        refine ih3 ?_
        simp at hi
        omega
      | succ i =>
        simp only [List.getD_cons_succ]
        refine ih4 i ?_
        simp at hi
        omega

/-- Claim C8 (corrected/amended): in the initialization phase of
`eval_amp_chain_loopback`, every machine is run with a two-value input
whose first value is its phase setting, but only the FIRST machine's
second input value is 0: each subsequent machine's second input value
is the previous machine's recorded first output (`init_input[1]` is
overwritten with `output[0]` after every iteration). -/
theorem amp_init_inputs {fuel : Nat} {amp_sw ps : List Value}
    {l : List ((Value × Value) × Value)} (h : ampInit fuel amp_sw ps = some l) :
    l.length = ps.length ∧
    (∀ i, i < l.length → (l.getD i ((0, 0), 0)).1.1 = ps.getD i 0) ∧
    (0 < l.length → (l.getD 0 ((0, 0), 0)).1.2 = 0) ∧
    (∀ i, i + 1 < l.length →
      (l.getD (i + 1) ((0, 0), 0)).1.2 = (l.getD i ((0, 0), 0)).2) :=
  ampInitTrace_spec fuel amp_sw ps 0 l h

/-- Claim C8 witness: for the echo program `[3, 0, 4, 0, 99]` with phase
settings `[9, 8, 7, 6, 5]`, machine 0's second input is 0 and machine
1's second input equals machine 0's first output. -/
theorem amp_init_inputs_witness :
    (([((9, 0), 9), ((8, 9), 8), ((7, 8), 7), ((6, 7), 6), ((5, 6), 5)] :
      List ((Value × Value) × Value)).getD 0 ((0, 0), 0)).1.2 = 0 ∧
    (([((9, 0), 9), ((8, 9), 8), ((7, 8), 7), ((6, 7), 6), ((5, 6), 5)] :
      List ((Value × Value) × Value)).getD 1 ((0, 0), 0)).1.2 =
      (([((9, 0), 9), ((8, 9), 8), ((7, 8), 7), ((6, 7), 6), ((5, 6), 5)] :
        List ((Value × Value) × Value)).getD 0 ((0, 0), 0)).2 := by
  have h : ampInit 16 [3, 0, 4, 0, 99] [9, 8, 7, 6, 5] =
      some [((9, 0), 9), ((8, 9), 8), ((7, 8), 7), ((6, 7), 6), ((5, 6), 5)] := by
    decide
  obtain ⟨-, -, h3, h4⟩ := amp_init_inputs h
  exact ⟨h3 (by decide), h4 0 (by decide)⟩

/-- Claim C8 counterexample: with the echo program `[3, 0, 4, 0, 99]`
(each machine outputs its first input) and phase settings
`[9, 8, 7, 6, 5]`, the second initialization input value of machine 1 is
9 — machine 0's first output — not 0 as the claim states. -/
theorem amp_init_second_input_not_zero :
    ampInit 16 [3, 0, 4, 0, 99] [9, 8, 7, 6, 5] =
      some [((9, 0), 9), ((8, 9), 8), ((7, 8), 7), ((6, 7), 6), ((5, 6), 5)] ∧
    (ampInit 16 [3, 0, 4, 0, 99] [9, 8, 7, 6, 5]).map
        (fun l => (l.getD 1 ((0, 0), 0)).1.2) = some 9 ∧
    (9 : Value) ≠ 0 :=
  ⟨by decide, by decide, by decide⟩

end Day7
